import Mathlib

/-!
Verification development for the grid path-planning core of `src/script.js`
(Emojiton): the synchronous `AStar` class (lines 180-277), the worker A*
variant generated by `createAStarWorker` (lines 284-340), and the path cache.

Modelling conventions:
* Cell coordinates and flat indices are `Int`, matching JS numbers used as
  integers.  `Math.floor(x / cols)` is `Int.fdiv`, the JS `%` remainder is
  `Int.tmod`; the two agree on the non-negative in-range indices produced by
  real runs.
* Movement costs are exact: the source's constants `1.0`, `1.414`, `0.7`,
  `1.15`, `1.3`, `1.2` are all integer multiples of `10 ^ (-5)`, so costs are
  represented as `Int` values in units of `10 ^ (-5)` (a base step is `1000`
  thousandths times a multiplier in hundredths).  Sums and strict comparisons
  of such costs agree with exact real arithmetic; heuristic cell distances are
  multiplied by `costScale` when combined with costs.
* The typed arrays `g`, `f`, `cameFrom` (initialised to `Infinity` / `-1`) are
  total maps `Int → Option Int` / `Int → Int`; `none` plays `Infinity` (and an
  out-of-range read, `undefined`, which compares the same way under `<`).
  Writes outside `[0, rows*cols)` are dropped, as on JS typed arrays.
* JS `Set` iteration order is insertion order and re-adding an element does
  not move it, so the open set is a duplicate-free `List Int` with append.
* The unbounded `while` loops are given explicit fuel; a `none` result means
  the model ran out of fuel (or the JS loop diverges, as happens for the
  reconstruction loop on an out-of-range index).  Claims are stated for runs
  that terminate, which covers every actual terminating JS execution.
* Terrain symbols are opaque emoji strings in the source; they are modelled by
  the inductive `Tile`, one constructor per emoji the pathfinding code
  inspects, plus `other`.  `Tile.empty` models both the empty string and the
  `undefined` read off the end of the array (both falsy, both `''` after the
  source's `|| ''`).
* The cache key string `r,c|r,c|RxC` is injective in the six numbers, so it
  is modelled as the 6-tuple of those numbers.
-/

/-- Cell coordinate pair, as the `{r, c}` objects of the source. -/
structure Cell where
  r : Int
  c : Int
deriving DecidableEq, Repr

/-- Terrain symbols inspected by the pathfinding code: road `🛣️` and parking
`🅿️` (cheap), pine `🌲` and tree `🌳` (vegetation), crane `🏗️` and factory
`🏭` (heavy), car `🚗` and ufo `🛸` (vehicles, also passable), bike `🚲`
(passable only), `empty` for `''`/`undefined`, `other` for any other emoji. -/
inductive Tile where
  | empty
  | road
  | parking
  | pine
  | tree
  | crane
  | factory
  | car
  | ufo
  | bike
  | other
deriving DecidableEq, Repr

/-- The grid: `rows × cols` dimensions and the flat row-major `cells` array
(`Grid` class, script.js lines 98-173). -/
structure Grid where
  rows : Int
  cols : Int
  cells : List Tile
deriving DecidableEq, Repr

/-- Number of cells, `rows * cols`. -/
def Grid.size (g : Grid) : Int := g.rows * g.cols

/-- `grid.get(r, c)` is `this.cells[r * this.cols + c]` (lines 108, 136): an
unchecked array read.  An out-of-range read yields `undefined`, which every
consumer in the pathfinder coerces to `''`, i.e. `Tile.empty`. -/
def Grid.get (g : Grid) (r c : Int) : Tile :=
  let i := r * g.cols + c
  if 0 ≤ i ∧ i < (g.cells.length : Int) then g.cells.getD i.toNat Tile.empty
  else Tile.empty

/-- Scale of the cost representation: costs are integers in units of
`10 ^ (-5)` of a step (base in thousandths times multiplier in hundredths). -/
def costScale : Int := 100000

/-- `AStar.getMoveCost` (lines 265-276): base `1.0` orthogonal / `1.414`
diagonal, then a chain of `if`s overwrites the multiplier `1` with `0.7` for
road/parking, `1.15` for pine/tree, `1.3` for crane/factory, `1.2` for
car/ufo, keyed on the destination tile.  Result in `10 ^ (-5)` units. -/
def getMoveCost (g : Grid) (r1 c1 r2 c2 : Int) : Int :=
  let base : Int := if r1 ≠ r2 ∧ c1 ≠ c2 then 1414 else 1000
  let tile := g.get r2 c2
  let m0 : Int := 100
  let m1 : Int := if tile = Tile.road ∨ tile = Tile.parking then 70 else m0
  let m2 : Int := if tile = Tile.pine ∨ tile = Tile.tree then 115 else m1
  let m3 : Int := if tile = Tile.crane ∨ tile = Tile.factory then 130 else m2
  let m4 : Int := if tile = Tile.car ∨ tile = Tile.ufo then 120 else m3
  base * m4

/-- `AStar.heuristic` (lines 197-203): Chebyshev `max(|Δr|, |Δc|)` in diagonal
mode, Manhattan `|Δr| + |Δc|` otherwise, in whole-cell units. -/
def heuristic (diag : Bool) (a b : Cell) : Int :=
  if diag then max ((a.r - b.r).natAbs : Int) ((a.c - b.c).natAbs : Int)
  else ((a.r - b.r).natAbs : Int) + ((a.c - b.c).natAbs : Int)

/-- The eight direction offsets of diagonal mode, in source order (line 189). -/
def dirs8 : List (Int × Int) :=
  [(1, 0), (-1, 0), (0, 1), (0, -1), (1, 1), (1, -1), (-1, 1), (-1, -1)]

/-- The four direction offsets of orthogonal mode (line 189). -/
def dirs4 : List (Int × Int) := [(1, 0), (-1, 0), (0, 1), (0, -1)]

/-- `AStar.neighbors` (lines 187-195): offsets filtered by the bounds check
`nr >= 0 && nc >= 0 && nr < rows && nc < cols`. -/
def neighbors (diag : Bool) (rows cols r c : Int) : List Cell :=
  (if diag then dirs8 else dirs4).filterMap fun d =>
    let nr := r + d.1
    let nc := c + d.2
    if 0 ≤ nr ∧ 0 ≤ nc ∧ nr < rows ∧ nc < cols then some ⟨nr, nc⟩ else none

/-- `AStar.passablePredicate` for the mask forms the program passes (lines
205-211): a missing mask makes everything passable; an array mask reads
`mask[p.r * cols + p.c]`, where a negative or overlong index reads
`undefined`, which is falsy. -/
def passablePredicate (mask : Option (List Bool)) (cols : Int) : Cell → Bool :=
  match mask with
  | none => fun _ => true
  | some a => fun p =>
      let i := p.r * cols + p.c
      if 0 ≤ i then a.getD i.toNat false else false

/-- Comparison `x < y` on `g`/`f` entries, where `none` is `Infinity` (or the
`undefined` of an out-of-range read; both make `x < y` false on the right of
a finite value and `Infinity < y` false on the left). -/
def ltEF : Option Int → Option Int → Bool
  | some a, some b => decide (a < b)
  | some _, none => true
  | none, _ => false

/-- Addition of a finite cost to a `g` entry; `Infinity + cost = Infinity`. -/
def addEF : Option Int → Int → Option Int
  | some a, q => some (a + q)
  | none, _ => none

/-- Guarded typed-array write for `Float64Array`-backed maps: out-of-range
writes are dropped. -/
def writeEF (size : Int) (m : Int → Option Int) (i : Int) (v : Option Int) :
    Int → Option Int :=
  if 0 ≤ i ∧ i < size then fun j => if j = i then v else m j else m

/-- Guarded typed-array write for the `Int32Array` `cameFrom`. -/
def writeI (size : Int) (m : Int → Int) (i v : Int) : Int → Int :=
  if 0 ≤ i ∧ i < size then fun j => if j = i then v else m j else m

/-- `open.add(k)` on a JS `Set`: appended when absent, untouched when present. -/
def addOpen (l : List Int) (k : Int) : List Int := if k ∈ l then l else l ++ [k]

/-- Per-invocation search state of the synchronous engine (lines 223-226). -/
structure SearchSt where
  gval : Int → Option Int
  fval : Int → Option Int
  came : Int → Int
  openL : List Int

/-- The open-set scan of lines 235-236: fold in insertion order, keeping the
first member whose `f` is strictly below the running minimum; `-1` and
`Infinity` are the initial accumulator. -/
def pickMin (fv : Int → Option Int) (l : List Int) : Int :=
  (l.foldl (fun acc k => if ltEF (fv k) acc.2 then (k, fv k) else acc)
    ((-1 : Int), (none : Option Int))).1

/-- One neighbor relaxation (lines 240-249): skip impassable cells, compute
`cost = g[current] + getMoveCost(...)`, and on strict improvement record the
predecessor, update `g` and `f` (adding the scaled heuristic to the goal) and
add the neighbor to the open set. -/
def relaxStep (g : Grid) (diag : Bool) (passable : Cell → Bool) (goal : Cell)
    (current cr cc : Int) (st : SearchSt) (n : Cell) : SearchSt :=
  if passable n then
    let ni := n.r * g.cols + n.c
    let cost := addEF (st.gval current) (getMoveCost g cr cc n.r n.c)
    if ltEF cost (st.gval ni) then
      { gval := writeEF g.size st.gval ni cost
        fval := writeEF g.size st.fval ni
          (addEF cost (heuristic diag n goal * costScale))
        came := writeI g.size st.came ni current
        openL := addOpen st.openL ni }
    else st
  else st

/-- One loop iteration body after the goal test (lines 238-250): remove the
popped index from the open set, decode it (`Math.floor(current / cols)`,
`current % cols`) and relax each of its neighbors in order. -/
def expand (g : Grid) (diag : Bool) (passable : Cell → Bool) (goal : Cell)
    (st : SearchSt) (current : Int) : SearchSt :=
  let o := st.openL.erase current
  let cr := Int.fdiv current g.cols
  let cc := Int.tmod current g.cols
  (neighbors diag g.rows g.cols cr cc).foldl
    (relaxStep g diag passable goal current cr cc) { st with openL := o }

/-- The `while(open.size)` loop of lines 233-251 with explicit fuel: stop with
the current state when the open set is empty or the popped index is the goal
index, otherwise expand and continue.  `none` means the fuel ran out. -/
def searchLoop (g : Grid) (diag : Bool) (passable : Cell → Bool) (goal : Cell)
    (goalIdx : Int) : Nat → SearchSt → Option SearchSt
  | 0, _ => none
  | fuel + 1, st =>
    if st.openL = [] then some st
    else
      let current := pickMin st.fval st.openL
      if current = goalIdx then some st
      else searchLoop g diag passable goal goalIdx fuel
        (expand g diag passable goal st current)

/-- The reconstruction loop of lines 254-259: walk `cameFrom` links from the
goal index until `-1`, prepending decoded cells.  A link outside the array
reads `undefined` and the JS loop never terminates, hence `none`; fuel
exhaustion is also `none`. -/
def rebuild (g : Grid) (came : Int → Int) : Nat → Int → Option (List Cell)
  | 0, _ => none
  | fuel + 1, cur =>
    if cur = -1 then some []
    else if 0 ≤ cur ∧ cur < g.size then
      (rebuild g came fuel (came cur)).map
        (fun l => l ++ [⟨Int.fdiv cur g.cols, Int.tmod cur g.cols⟩])
    else none

/-- Cache key: the six numbers rendered into the key string
`r,c|r,c|RxC` of line 215 (the rendering is injective in them). -/
structure CacheKey where
  sr : Int
  sc : Int
  gr : Int
  gc : Int
  rows : Int
  cols : Int
deriving DecidableEq, Repr

/-- Key for a query (line 215). -/
def mkKey (start goal : Cell) (g : Grid) : CacheKey :=
  ⟨start.r, start.c, goal.r, goal.c, g.rows, g.cols⟩

/-- `Map.get`-style lookup on the association-list model of the cache. -/
def lookupCache {α : Type} : List (CacheKey × α) → CacheKey → Option α
  | [], _ => none
  | (k, v) :: rest, key => if k = key then some v else lookupCache rest key

/-- `Map.set`: the new binding shadows any earlier one. -/
def insertCache {α : Type} (l : List (CacheKey × α)) (k : CacheKey) (v : α) :
    List (CacheKey × α) :=
  (k, v) :: l

/-- The `AStar` instance state: the grid it reads, the path cache, and the
`diagonal` flag set to `true` by the constructor (lines 181-185). -/
structure AStar where
  grid : Grid
  cache : List (CacheKey × List Cell)
  diagonal : Bool
deriving DecidableEq, Repr

/-- Fresh engine on a grid, as `new AStar(grid)`. -/
def mkAStar (g : Grid) : AStar := ⟨g, [], true⟩

/-- Initial search state (lines 223-231): `g` and `f` filled with `Infinity`,
`cameFrom` filled with `-1`, then `g[startIdx] = 0`,
`f[startIdx] = heuristic(start, goal)` (guarded writes) and the start index
put into the open set unconditionally. -/
def initState (s : AStar) (start goal : Cell) : SearchSt :=
  let size := s.grid.size
  let startIdx := start.r * s.grid.cols + start.c
  { gval := writeEF size (fun _ => none) startIdx (some 0)
    fval := writeEF size (fun _ => none) startIdx
      (some (heuristic s.diagonal start goal * costScale))
    came := fun _ => -1
    openL := [startIdx] }

/-- The search phase of `findPath`: the main loop run from the initial state. -/
def runSearch (fuel : Nat) (s : AStar) (start goal : Cell)
    (passable : Cell → Bool) : Option SearchSt :=
  searchLoop s.grid s.diagonal passable goal
    (goal.r * s.grid.cols + goal.c) fuel (initState s start goal)

/-- `AStar.findPath` (lines 213-263) over an arbitrary passability predicate:
return a (value-semantics) copy of the cached path on a key hit; otherwise
search, answer `null` when `cameFrom[goalIdx]` is `-1` (an in-range read),
otherwise reconstruct, cache the path only when its length is below 512, and
return it.  The outer `Option` is `none` when the fuel ran out (or the JS
reconstruction diverges on an out-of-range goal index). -/
def findPathF (fuel : Nat) (s : AStar) (start goal : Cell)
    (passable : Cell → Bool) : Option (Option (List Cell) × AStar) :=
  let key := mkKey start goal s.grid
  match lookupCache s.cache key with
  | some p => some (some p, s)
  | none =>
    let goalIdx := goal.r * s.grid.cols + goal.c
    match runSearch fuel s start goal passable with
    | none => none
    | some stF =>
      if (0 ≤ goalIdx ∧ goalIdx < s.grid.size) ∧ stF.came goalIdx = -1 then
        some (none, s)
      else
        match rebuild s.grid stF.came fuel goalIdx with
        | none => none
        | some p =>
          some (some p,
            { s with cache :=
                if p.length < 512 then insertCache s.cache key p
                else s.cache })

/-- `AStar.findPath` applied to an optional array mask, the only mask forms
the program passes (`Game.findPath` line 432 passes a 0/1 array). -/
def findPath (fuel : Nat) (s : AStar) (start goal : Cell)
    (mask : Option (List Bool)) : Option (Option (List Cell) × AStar) :=
  findPathF fuel s start goal (passablePredicate mask s.grid.cols)

/-- The worker's `h` (line 295): Chebyshev `max(|Δr|, |Δc|)`, used only for
the start cell's initial `f` value (line 308). -/
def workerH (a b : Cell) : Int :=
  max ((a.r - b.r).natAbs : Int) ((a.c - b.c).natAbs : Int)

/-- The estimate the worker adds to `tentative` when writing `fCost` during
expansion (line 325): Manhattan `|nr - goal.r| + |nc - goal.c|`, in
whole-cell units. -/
def workerFEstimate (a b : Cell) : Int :=
  ((a.r - b.r).natAbs : Int) + ((a.c - b.c).natAbs : Int)

/-- `passable[ni]` on the worker's 0/1 array (line 318): an out-of-range read
is `undefined`, which is falsy. -/
def getMask (passable : List Bool) (i : Int) : Bool :=
  if 0 ≤ i then passable.getD i.toNat false else false

/-- Guarded write on the `Uint8Array` open-membership array. -/
def writeB (size : Int) (m : Int → Bool) (i : Int) (v : Bool) : Int → Bool :=
  if 0 ≤ i ∧ i < size then fun j => if j = i then v else m j else m

/-- `siftUp` of line 305 with fuel: compare with the parent `(i-1)/2 | 0`
under the current `f` values and swap upward while strictly smaller. -/
def siftUpAux (fv : Int → Option Int) : Nat → List Int → Nat → List Int
  | 0, h, _ => h
  | fuel + 1, h, i =>
    if 0 < i then
      let p := (i - 1) / 2
      if ltEF (fv (h.getD i 0)) (fv (h.getD p 0)) then
        siftUpAux fv fuel ((h.set i (h.getD p 0)).set p (h.getD i 0)) p
      else h
    else h

/-- `siftUp(i)`: the index strictly decreases each swap, so fuel `i + 1` runs
the JS loop to completion. -/
def siftUp (fv : Int → Option Int) (h : List Int) (i : Nat) : List Int :=
  siftUpAux fv (i + 1) h i

/-- `siftDown` of line 306 with fuel: pick the smaller child under the current
`f` values, swap downward while a child is strictly smaller. -/
def siftDownAux (fv : Int → Option Int) : Nat → List Int → Nat → List Int
  | 0, h, _ => h
  | fuel + 1, h, i =>
    let n := h.length
    let l := 2 * i + 1
    let r := 2 * i + 2
    let s1 := if l < n then
        (if ltEF (fv (h.getD l 0)) (fv (h.getD i 0)) then l else i)
      else i
    let s2 := if r < n then
        (if ltEF (fv (h.getD r 0)) (fv (h.getD s1 0)) then r else s1)
      else s1
    if s2 ≠ i then
      siftDownAux fv fuel ((h.set i (h.getD s2 0)).set s2 (h.getD i 0)) s2
    else h

/-- `siftDown(0)`: the index strictly increases and stays below the length,
so fuel `length + 1` runs the JS loop to completion. -/
def siftDown (fv : Int → Option Int) (h : List Int) (i : Nat) : List Int :=
  siftDownAux fv (h.length + 1) h i

/-- `heapPush` (line 303): append, then sift the last position up. -/
def heapPush (fv : Int → Option Int) (h : List Int) (k : Int) : List Int :=
  siftUp fv (h ++ [k]) h.length

/-- `heapPop` (line 304): return the root and the heap after moving the last
element to the root and sifting down; `-1` on an empty heap. -/
def heapPop (fv : Int → Option Int) (h : List Int) : Int × List Int :=
  match h with
  | [] => (-1, [])
  | _ =>
    let top := h.getD 0 0
    let last := h.getD (h.length - 1) 0
    let h1 := h.dropLast
    if h1 = [] then (top, h1)
    else (top, siftDown fv (h1.set 0 last) 0)

/-- Worker search state (lines 297-302): typed arrays `g`, `f`, `came`, the
`Uint8Array` open-membership array, and the heap of indices. -/
structure WSt where
  gval : Int → Option Int
  fval : Int → Option Int
  came : Int → Int
  openA : Int → Bool
  heap : List Int

/-- One direction of the worker expansion (lines 314-327): bounds test,
passability test, uniform base cost `1.0`/`1.414` (no terrain multiplier,
in `10 ^ (-5)` units), relaxation writing `came`, `g` and
`f = tentative + Manhattan`, and a heap push only when the cell was never
pushed before (`open` is never cleared). -/
def workerRelax (rows cols : Int) (passable : List Bool) (goal : Cell)
    (current cr cc : Int) (st : WSt) (d : Int × Int) : WSt :=
  let size := rows * cols
  let nr := cr + d.1
  let nc := cc + d.2
  if nr < 0 ∨ nc < 0 ∨ nr ≥ rows ∨ nc ≥ cols then st
  else
    let ni := nr * cols + nc
    if ¬ getMask passable ni then st
    else
      let base : Int := if d.1 ≠ 0 ∧ d.2 ≠ 0 then 141400 else 100000
      let tentative := addEF (st.gval current) base
      if ltEF tentative (st.gval ni) then
        let came2 := writeI size st.came ni current
        let g2 := writeEF size st.gval ni tentative
        let f2 := writeEF size st.fval ni
          (addEF tentative (workerFEstimate ⟨nr, nc⟩ goal * costScale))
        if st.openA ni then
          { gval := g2, fval := f2, came := came2, openA := st.openA
            heap := st.heap }
        else
          { gval := g2, fval := f2, came := came2
            openA := writeB size st.openA ni true
            heap := heapPush f2 st.heap ni }
      else st

/-- The worker's `while(heap.length)` loop (lines 310-329) with fuel: pop the
heap root, stop when it is the goal index, otherwise decode with `|0`
truncation and relax all eight directions in order. -/
def workerLoop (rows cols : Int) (passable : List Bool) (goal : Cell)
    (goalIdx : Int) : Nat → WSt → Option WSt
  | 0, _ => none
  | fuel + 1, st =>
    if st.heap = [] then some st
    else
      let pr := heapPop st.fval st.heap
      let current := pr.1
      let st1 : WSt := { st with heap := pr.2 }
      if current = goalIdx then some st1
      else
        let cr := Int.tdiv current cols
        let cc := Int.tmod current cols
        workerLoop rows cols passable goal goalIdx fuel
          (dirs8.foldl (workerRelax rows cols passable goal current cr cc) st1)

/-- The worker's reconstruction loop (lines 331-332), decoding with `|0`
truncation; same divergence conventions as `rebuild`. -/
def workerRebuild (rows cols : Int) (came : Int → Int) :
    Nat → Int → Option (List Cell)
  | 0, _ => none
  | fuel + 1, cur =>
    if cur = -1 then some []
    else if 0 ≤ cur ∧ cur < rows * cols then
      (workerRebuild rows cols came fuel (came cur)).map
        (fun l => l ++ [⟨Int.tdiv cur cols, Int.tmod cur cols⟩])
    else none

/-- Worker initial state (lines 297-308): arrays filled with
`Infinity` / `-1` / `0`, then `g[startIdx] = 0`,
`f[startIdx] = h(start, goal)` (Chebyshev), the start pushed and marked. -/
def workerInit (rows cols : Int) (start goal : Cell) : WSt :=
  let size := rows * cols
  let startIdx := start.r * cols + start.c
  { gval := writeEF size (fun _ => none) startIdx (some 0)
    fval := writeEF size (fun _ => none) startIdx
      (some (workerH start goal * costScale))
    came := fun _ => -1
    openA := writeB size (fun _ => false) startIdx true
    heap := heapPush (writeEF size (fun _ => none) startIdx
      (some (workerH start goal * costScale))) [] startIdx }

/-- The worker's `find` handler (lines 287-334): run the heap search, post
`null` when `came[goalIdx]` is `-1` (in-range read), otherwise the
reconstructed path.  Outer `none`: out of fuel / JS divergence. -/
def workerFind (fuel : Nat) (rows cols : Int) (start goal : Cell)
    (passable : List Bool) : Option (Option (List Cell)) :=
  let goalIdx := goal.r * cols + goal.c
  match workerLoop rows cols passable goal goalIdx fuel
      (workerInit rows cols start goal) with
  | none => none
  | some stF =>
    if (0 ≤ goalIdx ∧ goalIdx < rows * cols) ∧ stF.came goalIdx = -1 then
      some none
    else
      (workerRebuild rows cols stF.came fuel goalIdx).map some

/-- Terrain the game's mask accepts (line 421): empty, road `🛣️`, or the
vehicle markers `🚗`, `🚲`, `🛸`. -/
def tilePassable : Tile → Bool
  | Tile.empty => true
  | Tile.road => true
  | Tile.car => true
  | Tile.bike => true
  | Tile.ufo => true
  | _ => false

/-- The 0/1 passability mask `Game.findPath` builds from the grid (lines
416-423), row-major. -/
def gameMask (g : Grid) : List Bool :=
  (List.range g.size.toNat).map fun i => tilePassable (g.cells.getD i Tile.empty)

/-- Total cost of a cell sequence under the synchronous engine's cost model,
`10 ^ (-5)` units. -/
def syncPathCost (g : Grid) : List Cell → Int
  | a :: b :: rest => getMoveCost g a.r a.c b.r b.c + syncPathCost g (b :: rest)
  | _ => 0

/-- Per-step cost of the worker engine (line 320): uniform base cost, no
terrain multiplier, `10 ^ (-5)` units. -/
def workerStepCost (a b : Cell) : Int :=
  if a.r ≠ b.r ∧ a.c ≠ b.c then 141400 else 100000

/-- Total cost of a cell sequence under the worker engine's cost model. -/
def workerPathCost : List Cell → Int
  | a :: b :: rest => workerStepCost a b + workerPathCost (b :: rest)
  | _ => 0

/-- Reference-level state for the cache-aliasing analysis: a store of cell
objects addressed by reference, and the cache holding arrays of references. -/
structure HeapSt where
  store : List Cell
  cacheR : List (CacheKey × List Nat)
deriving DecidableEq, Repr

/-- Dereference an array of cell references against a store. -/
def derefPath (store : List Cell) (refs : List Nat) : List Cell :=
  refs.map fun i => store.getD i ⟨0, 0⟩

/-- In-place mutation of one cell object (`path[k].r = …; path[k].c = …`),
the mutation the data-model invariant of the spec is about. -/
def setCellObj (hs : HeapSt) (i : Nat) (v : Cell) : HeapSt :=
  { hs with store := hs.store.set i v }

/-- `AStar.findPath` at the level of object references, for the cache
discipline of lines 215-216 and 253-262: on a hit, `cache.get(key).slice()`
is a fresh array holding the cached references; on a miss, the
reconstruction allocates fresh `{r, c}` objects (line 257),
`cache.set(key, path.slice())` stores a fresh array holding those same
references (line 261), and the caller receives the original array, again the
same references (line 262).  The search itself is the value-level `findPathF`
(the key was just checked absent, so an empty cache is equivalent). -/
def findPathRefs (fuel : Nat) (g : Grid) (hs : HeapSt) (start goal : Cell)
    (passable : Cell → Bool) : Option (Option (List Nat) × HeapSt) :=
  let key := mkKey start goal g
  match lookupCache hs.cacheR key with
  | some refs => some (some refs, hs)
  | none =>
    match findPathF fuel ⟨g, [], true⟩ start goal passable with
    | none => none
    | some (none, _) => some (none, hs)
    | some (some p, _) =>
      let refs := (List.range p.length).map (· + hs.store.length)
      let hs2 : HeapSt := ⟨hs.store ++ p,
        if p.length < 512 then insertCache hs.cacheR key refs else hs.cacheR⟩
      some (some refs, hs2)

/-- Flat index of a cell, `r * cols + c` (the grid's sole addressing law). -/
def encode (cols : Int) (p : Cell) : Int := p.r * cols + p.c

/-- Decoding used by the synchronous engine (line 239 and line 257):
`Math.floor(i / cols)` and the JS remainder `i % cols`. -/
def decode (cols i : Int) : Cell := ⟨Int.fdiv i cols, Int.tmod i cols⟩

/-- A single legal move of the engine: the target is one of the source cell's
in-bounds neighbors and is passable. -/
def stepOK (diag : Bool) (rows cols : Int) (passable : Cell → Bool)
    (a b : Cell) : Prop :=
  b ∈ neighbors diag rows cols a.r a.c ∧ passable b = true

instance stepOKDecidable (diag : Bool) (rows cols : Int)
    (passable : Cell → Bool) : DecidableRel (stepOK diag rows cols passable) :=
  fun a b => inferInstanceAs (Decidable (_ ∈ _ ∧ _ = _))

/-- Every consecutive pair of the list satisfies the relation. -/
def ChainOK (R : Cell → Cell → Prop) : List Cell → Prop
  | a :: b :: rest => R a b ∧ ChainOK R (b :: rest)
  | _ => True

def chainOKDec (R : Cell → Cell → Prop) [DecidableRel R] :
    (l : List Cell) → Decidable (ChainOK R l)
  | [] => isTrue trivial
  | [_] => isTrue trivial
  | a :: b :: rest =>
    have : Decidable (ChainOK R (b :: rest)) := chainOKDec R (b :: rest)
    inferInstanceAs (Decidable (R a b ∧ ChainOK R (b :: rest)))

instance (R : Cell → Cell → Prop) [DecidableRel R] (l : List Cell) :
    Decidable (ChainOK R l) := chainOKDec R l

/-- Fixture: 1×2 all-empty grid. -/
def G2 : Grid := ⟨1, 2, [Tile.empty, Tile.empty]⟩

/-- Fixture: 1×3 grid with a road tile in the middle. -/
def G3 : Grid := ⟨1, 3, [Tile.empty, Tile.road, Tile.empty]⟩

/-- Fixture: 1×3 all-empty grid. -/
def G3e : Grid := ⟨1, 3, [Tile.empty, Tile.empty, Tile.empty]⟩

/-- Fixture: 2×2 all-empty grid. -/
def G22 : Grid := ⟨2, 2, [Tile.empty, Tile.empty, Tile.empty, Tile.empty]⟩

/-- Fixture: 1×3 grid split by an impassable tile. -/
def GWall : Grid := ⟨1, 3, [Tile.empty, Tile.other, Tile.empty]⟩

/-- Fixture: 1×2 grid whose second cell is a road. -/
def GRoad : Grid := ⟨1, 2, [Tile.empty, Tile.road]⟩

/-- Fixture: 2×5 grid whose top row is empty and whole bottom row is road,
so discounted road steps reward a detour that the worker's uniform cost
model does not. -/
def G25 : Grid :=
  ⟨2, 5, [Tile.empty, Tile.empty, Tile.empty, Tile.empty, Tile.empty,
    Tile.road, Tile.road, Tile.road, Tile.road, Tile.road]⟩

/-- Fixture: the engine state after a first `findPath` call on `G3e` from
`(0,0)` to `(0,2)` cached the straight path. -/
def S1 : AStar :=
  ⟨G3e, [(mkKey ⟨0, 0⟩ ⟨0, 2⟩ G3e, [⟨0, 0⟩, ⟨0, 1⟩, ⟨0, 2⟩])], true⟩

/-- Multiplier table as the specification words it: `×0.7` road-like
(road, parking), `×1.15` vegetation/park (pine, tree), `×1.3` heavy
industrial/building (crane, factory), `×1.2` vehicle-occupied (car, ufo),
`×1.0` anything else.  Stated over `ℚ` to compare against the real-valued
claim. -/
def specMultiplierQ : Tile → ℚ
  | Tile.road => 7/10
  | Tile.parking => 7/10
  | Tile.pine => 23/20
  | Tile.tree => 23/20
  | Tile.crane => 13/10
  | Tile.factory => 13/10
  | Tile.car => 6/5
  | Tile.ufo => 6/5
  | _ => 1

/-- Index lies within the typed arrays of a search over a grid's cells. -/
def inRangeIdx (size i : Int) : Prop := 0 ≤ i ∧ i < size

/-- Invariant of the synchronous search loop, tying the `cameFrom` forest to
legal moves: every parented index is in range, its parent is in range and is
the start or itself parented, the decoded step from parent to child is a
passable in-bounds neighbor move, and `g` strictly increases from parent to
child; `g` holds non-negative finite values, the start keeps `g = 0` and no
parent, out-of-range entries stay at their initial values, and every open
index is the start or parented. -/
structure SearchInv (g : Grid) (diag : Bool) (passable : Cell → Bool)
    (startIdx : Int) (st : SearchSt) : Prop where
  startIn : inRangeIdx g.size startIdx
  openIn : ∀ k ∈ st.openL, k = startIdx ∨ st.came k ≠ -1
  gNonneg : ∀ i q, st.gval i = some q → 0 ≤ q
  gOut : ∀ i, ¬ inRangeIdx g.size i → st.gval i = none
  cameOut : ∀ i, ¬ inRangeIdx g.size i → st.came i = -1
  gStart : st.gval startIdx = some 0
  cameStart : st.came startIdx = -1
  cameProp : ∀ i, st.came i ≠ -1 →
    inRangeIdx g.size i ∧ inRangeIdx g.size (st.came i) ∧
    (st.came i = startIdx ∨ st.came (st.came i) ≠ -1) ∧
    decode g.cols i ∈ neighbors diag g.rows g.cols
      (decode g.cols (st.came i)).r (decode g.cols (st.came i)).c ∧
    passable (decode g.cols i) = true ∧
    ltEF (st.gval (st.came i)) (st.gval i) = true

theorem getD_default {α : Type} (l : List α) (n : Nat) (d : α)
    (h : l.length ≤ n) : l.getD n d = d := by
  simp [List.getD, List.getElem?_eq_none h]

theorem getD_mem {α : Type} (l : List α) (n : Nat) (d : α)
    (h : n < l.length) : l.getD n d ∈ l := by
  rw [List.getD_eq_getElem l d h]
  exact List.getElem_mem h

theorem encode_range {rows cols : Int} {p : Cell} (hc : 0 < cols)
    (h : 0 ≤ p.r ∧ p.r < rows ∧ 0 ≤ p.c ∧ p.c < cols) :
    0 ≤ encode cols p ∧ encode cols p < rows * cols := by
  unfold encode
  obtain ⟨h1, h2, h3, h4⟩ := h
  constructor
  · have := mul_nonneg h1 hc.le
    omega
  · have ha : p.r * cols + p.c < (p.r + 1) * cols := by
      have : (p.r + 1) * cols = p.r * cols + cols := by ring
      omega
    have hb : (p.r + 1) * cols ≤ rows * cols :=
      mul_le_mul_of_nonneg_right (by omega) hc.le
    omega

theorem decode_encode {cols : Int} {p : Cell} (hc : 0 < cols)
    (hr : 0 ≤ p.r) (hcc : 0 ≤ p.c ∧ p.c < cols) :
    decode cols (encode cols p) = p := by
  unfold decode encode
  have hnn : 0 ≤ p.r * cols + p.c := by
    have := mul_nonneg hr hc.le
    omega
  have hre : p.r * cols + p.c = p.c + cols * p.r := by ring
  cases p with
  | mk pr pc =>
    simp only [Cell.mk.injEq]
    constructor
    · rw [Int.fdiv_eq_ediv _ hc.le, hre, Int.add_mul_ediv_left _ _ (by omega : cols ≠ 0),
        Int.ediv_eq_zero_of_lt hcc.1 hcc.2]
      simp
    · rw [Int.tmod_eq_emod hnn hc.le, hre, Int.add_mul_emod_self_left,
        Int.emod_eq_of_lt hcc.1 hcc.2]

theorem decode_range {rows cols i : Int} (hc : 0 < cols) (hr : 0 < rows)
    (h : 0 ≤ i ∧ i < rows * cols) :
    0 ≤ (decode cols i).r ∧ (decode cols i).r < rows ∧
    0 ≤ (decode cols i).c ∧ (decode cols i).c < cols ∧
    encode cols (decode cols i) = i := by
  unfold decode encode
  rw [Int.fdiv_eq_ediv _ hc.le, Int.tmod_eq_emod h.1 hc.le]
  have hdm := Int.ediv_add_emod i cols
  refine ⟨Int.ediv_nonneg h.1 hc.le, ?_, Int.emod_nonneg i (by omega),
    Int.emod_lt_of_pos i hc, ?_⟩
  · rw [Int.ediv_lt_iff_lt_mul hc]
    calc i < rows * cols := h.2
    _ = rows * cols := rfl
  · show i / cols * cols + i % cols = i
    have hdm2 : i / cols * cols = cols * (i / cols) := mul_comm _ _
    omega

/-- Claim C6: for every step and destination terrain, `getMoveCost` is the
base cost (1.0 orthogonal, 1.414 diagonal) times the terrain multiplier
(0.7 road-like, 1.15 vegetation/park, 1.3 heavy industrial/building,
1.2 vehicle-occupied, 1.0 otherwise), and the result is strictly positive
(an exact rational, hence finite); costs carry the `10 ^ 5` scale. -/
theorem getMoveCost_base_times_mult (g : Grid) (r1 c1 r2 c2 : Int) :
    (getMoveCost g r1 c1 r2 c2 : ℚ) =
      (if r1 ≠ r2 ∧ c1 ≠ c2 then 1.414 else 1) *
        specMultiplierQ (g.get r2 c2) * 100000 ∧
    0 < getMoveCost g r1 c1 r2 c2 := by
  constructor
  · by_cases hb : r1 ≠ r2 ∧ c1 ≠ c2 <;>
      cases h : g.get r2 c2 <;>
        simp [getMoveCost, specMultiplierQ, h, hb] <;> norm_num
  · by_cases hb : r1 ≠ r2 ∧ c1 ≠ c2 <;>
      cases h : g.get r2 c2 <;>
        simp [getMoveCost, h, hb]

/-- Claim C2 counterexample: on the 2×2 all-empty grid, the call with the
out-of-bounds start `(0, 2)` (column index 2 ≥ cols = 2) is not rejected:
the search runs and returns the two-cell path from the aliased in-bounds
cell `(1, 0)`, because nothing validates the inputs. -/
theorem findPath_oob_start_searched :
    (findPathF 20 (mkAStar G22) ⟨0, 2⟩ ⟨1, 1⟩ (fun _ => true)).map
        (fun x => x.1) =
      some (some [⟨1, 0⟩, ⟨1, 1⟩]) := by decide

/-- Claim C2 amended: `findPath` performs no bounds validation; an
out-of-bounds coordinate is folded through the flat index `r * cols + c`, so
on the 2×2 grid the out-of-bounds start `(0, 2)` is silently searched as the
aliased cell `(1, 0)` — the call returns the very path the in-bounds call
from `(1, 0)` returns, not a rejection and not the null marker. -/
theorem findPath_oob_start_aliased :
    (findPathF 20 (mkAStar G22) ⟨0, 2⟩ ⟨1, 1⟩ (fun _ => true)).map
        (fun x => x.1) =
      (findPathF 20 (mkAStar G22) ⟨1, 0⟩ ⟨1, 1⟩ (fun _ => true)).map
        (fun x => x.1) ∧
    (findPathF 20 (mkAStar G22) ⟨0, 2⟩ ⟨1, 1⟩ (fun _ => true)).map
        (fun x => x.1) ≠ some none := by decide

/-- Claim C3 counterexample: compute a path on the 1×2 grid (a miss that
caches references `[0, 1]`), mutate the second cell object of the returned
path to `(9, 9)`, and query again: the cache hit dereferences to
`[(0,0), (9,9)]`, not the originally computed `[(0,0), (0,1)]` — `slice()`
copies the array but shares the coordinate objects. -/
theorem findPath_cacheHit_mutation_visible :
    findPathRefs 20 G2 ⟨[], []⟩ ⟨0, 0⟩ ⟨0, 1⟩ (fun _ => true) =
      some (some [0, 1],
        ⟨[⟨0, 0⟩, ⟨0, 1⟩], [(mkKey ⟨0, 0⟩ ⟨0, 1⟩ G2, [0, 1])]⟩) ∧
    setCellObj ⟨[⟨0, 0⟩, ⟨0, 1⟩], [(mkKey ⟨0, 0⟩ ⟨0, 1⟩ G2, [0, 1])]⟩ 1 ⟨9, 9⟩ =
      ⟨[⟨0, 0⟩, ⟨9, 9⟩], [(mkKey ⟨0, 0⟩ ⟨0, 1⟩ G2, [0, 1])]⟩ ∧
    findPathRefs 20 G2 ⟨[⟨0, 0⟩, ⟨9, 9⟩], [(mkKey ⟨0, 0⟩ ⟨0, 1⟩ G2, [0, 1])]⟩
        ⟨0, 0⟩ ⟨0, 1⟩ (fun _ => true) =
      some (some [0, 1],
        ⟨[⟨0, 0⟩, ⟨9, 9⟩], [(mkKey ⟨0, 0⟩ ⟨0, 1⟩ G2, [0, 1])]⟩) ∧
    derefPath [⟨0, 0⟩, ⟨9, 9⟩] [0, 1] ≠ derefPath [⟨0, 0⟩, ⟨0, 1⟩] [0, 1] := by
  decide

/-- Claim C3 amended: a cache hit returns a fresh array holding exactly the
cached cell references and leaves the store untouched, so its value is the
cached path's current cell objects — array-level mutations of a previously
returned path are invisible to the cache, but mutating a shared cell object
(as in the counterexample) is reflected in later hits. -/
theorem findPath_cacheHit_shares_refs (fuel : Nat) (g : Grid) (hs : HeapSt)
    (start goal : Cell) (passable : Cell → Bool) (refs : List Nat)
    (hhit : lookupCache hs.cacheR (mkKey start goal g) = some refs) :
    findPathRefs fuel g hs start goal passable = some (some refs, hs) := by
  simp only [findPathRefs, hhit]

theorem findPath_cacheHit_shares_refs_witness :
    lookupCache (HeapSt.cacheR ⟨[⟨0, 0⟩, ⟨9, 9⟩],
        [(mkKey ⟨0, 0⟩ ⟨0, 1⟩ G2, [0, 1])]⟩) (mkKey ⟨0, 0⟩ ⟨0, 1⟩ G2) =
      some [0, 1] ∧
    findPathRefs 20 G2 ⟨[⟨0, 0⟩, ⟨9, 9⟩], [(mkKey ⟨0, 0⟩ ⟨0, 1⟩ G2, [0, 1])]⟩
        ⟨0, 0⟩ ⟨0, 1⟩ (fun _ => true) =
      some (some [0, 1],
        ⟨[⟨0, 0⟩, ⟨9, 9⟩], [(mkKey ⟨0, 0⟩ ⟨0, 1⟩ G2, [0, 1])]⟩) :=
  ⟨by decide, findPath_cacheHit_shares_refs 20 G2 _ _ _ _ _ (by decide)⟩

/-- Claim C5 counterexample: identical input to both engines (the 2×5 grid
`G25` whose bottom row is road, the game's own passability mask, start
`(0,0)`, goal `(0,4)`): the synchronous engine returns the road detour
`[(0,0),(1,1),(1,2),(1,3),(0,4)]` while the worker returns the straight top
row `[(0,0),(0,1),(0,2),(0,3),(0,4)]` — different cell sequences whose total
costs differ under the synchronous cost model (`3.8038` vs `4.0`, scaled
`380380` vs `400000`) and under the worker cost model (`4.828` vs `4.0`,
scaled `482800` vs `400000`): under either common measure the two engines
do not return paths of identical total cost. -/
theorem engines_cost_disagree :
    (findPath 200 (mkAStar G25) ⟨0, 0⟩ ⟨0, 4⟩ (some (gameMask G25))).map
        (fun x => x.1) =
      some (some [⟨0, 0⟩, ⟨1, 1⟩, ⟨1, 2⟩, ⟨1, 3⟩, ⟨0, 4⟩]) ∧
    workerFind 200 2 5 ⟨0, 0⟩ ⟨0, 4⟩ (gameMask G25) =
      some (some [⟨0, 0⟩, ⟨0, 1⟩, ⟨0, 2⟩, ⟨0, 3⟩, ⟨0, 4⟩]) ∧
    ([⟨0, 0⟩, ⟨1, 1⟩, ⟨1, 2⟩, ⟨1, 3⟩, ⟨0, 4⟩] : List Cell) ≠
      [⟨0, 0⟩, ⟨0, 1⟩, ⟨0, 2⟩, ⟨0, 3⟩, ⟨0, 4⟩] ∧
    syncPathCost G25 [⟨0, 0⟩, ⟨1, 1⟩, ⟨1, 2⟩, ⟨1, 3⟩, ⟨0, 4⟩] = 380380 ∧
    syncPathCost G25 [⟨0, 0⟩, ⟨0, 1⟩, ⟨0, 2⟩, ⟨0, 3⟩, ⟨0, 4⟩] = 400000 ∧
    workerPathCost [⟨0, 0⟩, ⟨1, 1⟩, ⟨1, 2⟩, ⟨1, 3⟩, ⟨0, 4⟩] = 482800 ∧
    workerPathCost [⟨0, 0⟩, ⟨0, 1⟩, ⟨0, 2⟩, ⟨0, 3⟩, ⟨0, 4⟩] = 400000 ∧
    (380380 : Int) ≠ 400000 ∧ (482800 : Int) ≠ 400000 := by decide

/-- Claim C5 amended: the engines' per-step costs agree exactly on steps
whose destination terrain has multiplier 1 (so the total costs agree on
paths over such terrain); on any other terrain the synchronous engine
applies its multiplier while the worker does not, which is why total costs
can differ (counterexample: the road tile). -/
theorem stepCost_agree_unit_mult (g : Grid) (a b : Cell)
    (hplain : specMultiplierQ (g.get b.r b.c) = 1) :
    getMoveCost g a.r a.c b.r b.c = workerStepCost a b := by
  cases h : g.get b.r b.c <;>
    (try (by_cases hb : a.r ≠ b.r ∧ a.c ≠ b.c <;>
      simp [getMoveCost, workerStepCost, h, hb])) <;>
    norm_num [specMultiplierQ, h] at hplain

theorem stepCost_agree_unit_mult_witness :
    specMultiplierQ (G2.get (Cell.c ⟨0, 1⟩) (Cell.c ⟨0, 1⟩)) = 1 ∧
    getMoveCost G2 0 0 0 1 = workerStepCost ⟨0, 0⟩ ⟨0, 1⟩ := by
  constructor
  · rfl
  · exact stepCost_agree_unit_mult G2 ⟨0, 0⟩ ⟨0, 1⟩ (by rfl)

/-- Claim C8 counterexample: on a fully-passable 2×2 grid, the worker's
fCost estimate (Manhattan) for `(0,0) → (1,1)` is `2`, yet the legal
one-step diagonal path costs `1.414` under the worker's own model; and on a
fully-passable 1×2 grid whose target is a road, the synchronous Chebyshev
estimate is `1`, yet the legal one-step path costs `0.7` under the
synchronous model — both estimates exceed a true path cost, hence the
optimal cost. -/
theorem estimates_exceed_true_cost :
    stepOK true 2 2 (fun _ => true) ⟨0, 0⟩ ⟨1, 1⟩ ∧
    workerPathCost [⟨0, 0⟩, ⟨1, 1⟩] = 141400 ∧
    workerFEstimate ⟨0, 0⟩ ⟨1, 1⟩ * costScale = 200000 ∧
    stepOK true 1 2 (passablePredicate (some (gameMask GRoad)) 2) ⟨0, 0⟩ ⟨0, 1⟩ ∧
    syncPathCost GRoad [⟨0, 0⟩, ⟨0, 1⟩] = 70000 ∧
    heuristic true ⟨0, 0⟩ ⟨0, 1⟩ * costScale = 100000 ∧
    (141400 : Int) < 200000 ∧ (70000 : Int) < 100000 := by decide

/-- Claim C10 counterexample: the cache key ignores the mask, so after an
all-passable call caches the straight path on the 1×3 empty grid, a second
call with a mask that blocks the middle cell gets a cache hit returning a
path whose second cell fails the passability mask of that very call. -/
theorem returned_path_violates_current_mask :
    findPath 30 (mkAStar G3e) ⟨0, 0⟩ ⟨0, 2⟩ (some [true, true, true]) =
      some (some [⟨0, 0⟩, ⟨0, 1⟩, ⟨0, 2⟩], S1) ∧
    findPath 30 S1 ⟨0, 0⟩ ⟨0, 2⟩ (some [true, false, true]) =
      some (some [⟨0, 0⟩, ⟨0, 1⟩, ⟨0, 2⟩], S1) ∧
    passablePredicate (some [true, false, true]) G3e.cols ⟨0, 1⟩ = false := by
  decide

theorem writeEF_pos {size : Int} {m : Int → Option Int} {i : Int}
    {v : Option Int} (h : 0 ≤ i ∧ i < size) : writeEF size m i v i = v := by
  simp [writeEF, h]

/-- Claim C1: the source never gives `cameFrom[start]` a value, so a call
with `start = goal` that reaches the search (a cache miss) exits the loop at
once through the goal test and then takes the `cameFrom[goalIdx] === -1`
branch: it returns `null` — the unreachable marker — instead of the one-cell
path the specification requires, leaving the engine state unchanged. -/
theorem findPath_start_eq_goal_null (fuel : Nat) (s : AStar) (p : Cell)
    (passable : Cell → Bool)
    (hin : 0 ≤ p.r ∧ p.r < s.grid.rows ∧ 0 ≤ p.c ∧ p.c < s.grid.cols)
    (hcols : 0 < s.grid.cols)
    (hmiss : lookupCache s.cache (mkKey p p s.grid) = none)
    (hfuel : 1 ≤ fuel) :
    findPathF fuel s p p passable = some (none, s) := by
  obtain ⟨n, rfl⟩ : ∃ n, fuel = n + 1 := ⟨fuel - 1, by omega⟩
  have hrange := encode_range hcols hin
  simp only [encode] at hrange
  have hrange2 : 0 ≤ p.r * s.grid.cols + p.c ∧
      p.r * s.grid.cols + p.c < s.grid.size := by
    simpa [Grid.size] using hrange
  have hfv : (initState s p p).fval (p.r * s.grid.cols + p.c) =
      some (heuristic s.diagonal p p * costScale) := by
    simp only [initState]
    exact writeEF_pos hrange2
  have hpick : pickMin (initState s p p).fval [p.r * s.grid.cols + p.c] =
      p.r * s.grid.cols + p.c := by
    simp [pickMin, hfv, ltEF]
  have hstep : runSearch (n + 1) s p p passable = some (initState s p p) := by
    unfold runSearch searchLoop
    have hne : ¬ ((initState s p p).openL = []) := by simp [initState]
    rw [if_neg hne]
    have hol : (initState s p p).openL = [p.r * s.grid.cols + p.c] := rfl
    rw [hol, hpick, if_pos rfl]
  simp only [findPathF, hmiss, hstep]
  have hcame : (initState s p p).came (p.r * s.grid.cols + p.c) = -1 := rfl
  rw [if_pos ⟨hrange2, hcame⟩]

theorem findPath_start_eq_goal_null_witness :
    (0 ≤ (Cell.r ⟨0, 0⟩) ∧ (Cell.r ⟨0, 0⟩) < (mkAStar G22).grid.rows ∧
      0 ≤ (Cell.c ⟨0, 0⟩) ∧ (Cell.c ⟨0, 0⟩) < (mkAStar G22).grid.cols) ∧
    0 < (mkAStar G22).grid.cols ∧
    lookupCache (mkAStar G22).cache (mkKey ⟨0, 0⟩ ⟨0, 0⟩ (mkAStar G22).grid) =
      none ∧
    1 ≤ 20 ∧
    findPathF 20 (mkAStar G22) ⟨0, 0⟩ ⟨0, 0⟩ (fun _ => true) =
      some (none, mkAStar G22) :=
  ⟨by decide, by decide, by decide, by decide,
    findPath_start_eq_goal_null 20 (mkAStar G22) ⟨0, 0⟩ (fun _ => true)
      (by decide) (by decide) (by decide) (by decide)⟩

/-- Claim C4: on a cache miss that produces a path, the path is inserted in
the cache exactly when its length is below 512 cells; a longer path leaves
the cache untouched while still being the returned value. -/
theorem findPath_cache_insert_iff_short (fuel : Nat) (s : AStar)
    (start goal : Cell) (passable : Cell → Bool) (p : List Cell) (s2 : AStar)
    (hmiss : lookupCache s.cache (mkKey start goal s.grid) = none)
    (hrun : findPathF fuel s start goal passable = some (some p, s2)) :
    (p.length < 512 →
      s2.cache = insertCache s.cache (mkKey start goal s.grid) p) ∧
    (512 ≤ p.length → s2.cache = s.cache) := by
  simp only [findPathF, hmiss] at hrun
  split at hrun
  · simp at hrun
  · split at hrun
    · simp at hrun
    · split at hrun
      · simp at hrun
      · rename_i q hrb
        simp only [Option.some.injEq, Prod.mk.injEq] at hrun
        obtain ⟨hq, hs2⟩ := hrun
        obtain rfl : q = p := by simpa using hq
        subst hs2
        dsimp only
        constructor
        · intro hlen
          split <;> first | rfl | omega
        · intro hlen
          split <;> first | rfl | omega

theorem findPath_cache_insert_iff_short_witness :
    lookupCache (mkAStar G2).cache (mkKey ⟨0, 0⟩ ⟨0, 1⟩ (mkAStar G2).grid) =
      none ∧
    findPathF 20 (mkAStar G2) ⟨0, 0⟩ ⟨0, 1⟩ (fun _ => true) =
      some (some [⟨0, 0⟩, ⟨0, 1⟩],
        ⟨G2, [(mkKey ⟨0, 0⟩ ⟨0, 1⟩ G2, [⟨0, 0⟩, ⟨0, 1⟩])], true⟩) ∧
    ((([⟨0, 0⟩, ⟨0, 1⟩] : List Cell).length < 512 →
      (AStar.cache ⟨G2, [(mkKey ⟨0, 0⟩ ⟨0, 1⟩ G2, [⟨0, 0⟩, ⟨0, 1⟩])], true⟩) =
        insertCache (mkAStar G2).cache (mkKey ⟨0, 0⟩ ⟨0, 1⟩ (mkAStar G2).grid)
          [⟨0, 0⟩, ⟨0, 1⟩]) ∧
    (512 ≤ ([⟨0, 0⟩, ⟨0, 1⟩] : List Cell).length →
      (AStar.cache ⟨G2, [(mkKey ⟨0, 0⟩ ⟨0, 1⟩ G2, [⟨0, 0⟩, ⟨0, 1⟩])], true⟩) =
        (mkAStar G2).cache)) :=
  ⟨by decide, by decide,
    findPath_cache_insert_iff_short 20 (mkAStar G2) ⟨0, 0⟩ ⟨0, 1⟩
      (fun _ => true) [⟨0, 0⟩, ⟨0, 1⟩] _ (by decide) (by decide)⟩

/-- Claim C7: when the search loop terminates with the frontier empty and
the goal never parented (`cameFrom[goalIdx] = -1`), `findPath` returns the
`null` marker as an ordinary value — the same `some (…, …)` shape as a
success, no exception path exists in the model — and the engine state is
returned unchanged (nothing is cached). -/
theorem findPath_unreachable_null (fuel : Nat) (s : AStar) (start goal : Cell)
    (passable : Cell → Bool)
    (hmiss : lookupCache s.cache (mkKey start goal s.grid) = none)
    (hgoal : 0 ≤ goal.r * s.grid.cols + goal.c ∧
      goal.r * s.grid.cols + goal.c < s.grid.size)
    (hexh : (runSearch fuel s start goal passable).map
        (fun st => (st.openL, st.came (goal.r * s.grid.cols + goal.c))) =
      some ([], -1)) :
    findPathF fuel s start goal passable = some (none, s) := by
  rcases hsr : runSearch fuel s start goal passable with _ | stF
  · rw [hsr] at hexh
    simp at hexh
  · rw [hsr] at hexh
    simp only [Option.map_some', Option.some.injEq, Prod.mk.injEq] at hexh
    simp only [findPathF, hmiss, hsr]
    rw [if_pos ⟨hgoal, hexh.2⟩]

theorem findPath_unreachable_null_witness :
    lookupCache (mkAStar GWall).cache
      (mkKey ⟨0, 0⟩ ⟨0, 2⟩ (mkAStar GWall).grid) = none ∧
    (0 ≤ (Cell.r ⟨0, 2⟩) * (mkAStar GWall).grid.cols + (Cell.c ⟨0, 2⟩) ∧
      (Cell.r ⟨0, 2⟩) * (mkAStar GWall).grid.cols + (Cell.c ⟨0, 2⟩) <
        (mkAStar GWall).grid.size) ∧
    (runSearch 20 (mkAStar GWall) ⟨0, 0⟩ ⟨0, 2⟩
        (passablePredicate (some (gameMask GWall)) GWall.cols)).map
      (fun st => (st.openL,
        st.came ((Cell.r ⟨0, 2⟩) * (mkAStar GWall).grid.cols +
          (Cell.c ⟨0, 2⟩)))) = some ([], -1) ∧
    findPathF 20 (mkAStar GWall) ⟨0, 0⟩ ⟨0, 2⟩
      (passablePredicate (some (gameMask GWall)) GWall.cols) =
      some (none, mkAStar GWall) :=
  ⟨by decide, by decide, by decide,
    findPath_unreachable_null 20 (mkAStar GWall) ⟨0, 0⟩ ⟨0, 2⟩
      (passablePredicate (some (gameMask GWall)) GWall.cols)
      (by decide) (by decide) (by decide)⟩

/-- Claim C9: `findPath` returns the grid it was given untouched in every
outcome — cache hit, unreachable, or computed path (only the cache field of
the engine state is ever replaced) — so rows, cols and every cell value are
identical before and after the call. -/
theorem findPath_grid_unchanged (fuel : Nat) (s : AStar) (start goal : Cell)
    (passable : Cell → Bool) (res : Option (List Cell)) (s2 : AStar)
    (hrun : findPathF fuel s start goal passable = some (res, s2)) :
    s2.grid = s.grid ∧ s2.grid.rows = s.grid.rows ∧
    s2.grid.cols = s.grid.cols ∧ s2.grid.cells = s.grid.cells := by
  suffices h : s2.grid = s.grid by simp [h]
  simp only [findPathF] at hrun
  split at hrun
  · simp only [Option.some.injEq, Prod.mk.injEq] at hrun
    rw [← hrun.2]
  · split at hrun
    · simp at hrun
    · split at hrun
      · simp only [Option.some.injEq, Prod.mk.injEq] at hrun
        rw [← hrun.2]
      · split at hrun
        · simp at hrun
        · simp only [Option.some.injEq, Prod.mk.injEq] at hrun
          rw [← hrun.2]

theorem findPath_grid_unchanged_witness :
    findPathF 20 (mkAStar G3) ⟨0, 0⟩ ⟨0, 2⟩
      (passablePredicate (some (gameMask G3)) G3.cols) =
      some (some [⟨0, 0⟩, ⟨0, 1⟩, ⟨0, 2⟩],
        ⟨G3, [(mkKey ⟨0, 0⟩ ⟨0, 2⟩ G3, [⟨0, 0⟩, ⟨0, 1⟩, ⟨0, 2⟩])], true⟩) ∧
    ((AStar.grid ⟨G3, [(mkKey ⟨0, 0⟩ ⟨0, 2⟩ G3, [⟨0, 0⟩, ⟨0, 1⟩, ⟨0, 2⟩])],
        true⟩) = (mkAStar G3).grid ∧
      (AStar.grid ⟨G3, [(mkKey ⟨0, 0⟩ ⟨0, 2⟩ G3, [⟨0, 0⟩, ⟨0, 1⟩, ⟨0, 2⟩])],
        true⟩).rows = (mkAStar G3).grid.rows ∧
      (AStar.grid ⟨G3, [(mkKey ⟨0, 0⟩ ⟨0, 2⟩ G3, [⟨0, 0⟩, ⟨0, 1⟩, ⟨0, 2⟩])],
        true⟩).cols = (mkAStar G3).grid.cols ∧
      (AStar.grid ⟨G3, [(mkKey ⟨0, 0⟩ ⟨0, 2⟩ G3, [⟨0, 0⟩, ⟨0, 1⟩, ⟨0, 2⟩])],
        true⟩).cells = (mkAStar G3).grid.cells) :=
  ⟨by decide,
    findPath_grid_unchanged 20 (mkAStar G3) ⟨0, 0⟩ ⟨0, 2⟩
      (passablePredicate (some (gameMask G3)) G3.cols)
      (some [⟨0, 0⟩, ⟨0, 1⟩, ⟨0, 2⟩]) _ (by decide)⟩

theorem chainOK_cons {R : Cell → Cell → Prop} {a b : Cell} {l : List Cell} :
    ChainOK R (a :: b :: l) ↔ R a b ∧ ChainOK R (b :: l) := Iff.rfl

theorem neighbors_delta {diag : Bool} {rows cols r c : Int} {n : Cell}
    (h : n ∈ neighbors diag rows cols r c) :
    (n.r - r).natAbs ≤ 1 ∧ (n.c - c).natAbs ≤ 1 ∧ ¬(n.r = r ∧ n.c = c) ∧
    0 ≤ n.r ∧ n.r < rows ∧ 0 ≤ n.c ∧ n.c < cols := by
  have hd8 : ∀ d ∈ dirs8, d.1.natAbs ≤ 1 ∧ d.2.natAbs ≤ 1 ∧
      ¬(d.1 = 0 ∧ d.2 = 0) := by decide
  have hd4 : ∀ d ∈ dirs4, d.1.natAbs ≤ 1 ∧ d.2.natAbs ≤ 1 ∧
      ¬(d.1 = 0 ∧ d.2 = 0) := by decide
  unfold neighbors at h
  rw [List.mem_filterMap] at h
  obtain ⟨d, hd, he⟩ := h
  have hdp : d.1.natAbs ≤ 1 ∧ d.2.natAbs ≤ 1 ∧ ¬(d.1 = 0 ∧ d.2 = 0) := by
    cases diag
    · exact hd4 d (by simpa using hd)
    · exact hd8 d (by simpa using hd)
  dsimp only at he
  split at he
  · rename_i hcond
    obtain rfl := Option.some.inj he
    obtain ⟨h1, h2, h3⟩ := hdp
    obtain ⟨h4, h5, h6, h7⟩ := hcond
    refine ⟨?_, ?_, ?_, ?_, ?_, ?_, ?_⟩ <;> dsimp only <;> omega
  · cases he

theorem getMoveCost_ge_unit {g : Grid} (r1 c1 r2 c2 : Int)
    (h : g.get r2 c2 = Tile.empty) : 100000 ≤ getMoveCost g r1 c1 r2 c2 := by
  simp [getMoveCost, h]
  split <;> norm_num

theorem get_empty_of_cells_empty {g : Grid}
    (h : ∀ t ∈ g.cells, t = Tile.empty) (r c : Int) :
    g.get r c = Tile.empty := by
  simp only [Grid.get]
  split
  · rename_i hin
    by_cases hlt : (r * g.cols + c).toNat < g.cells.length
    · exact h _ (getD_mem _ _ _ hlt)
    · exact getD_default _ _ _ (by omega)
  · rfl

theorem cheb_step {a y goal : Cell} (hr : (y.r - a.r).natAbs ≤ 1)
    (hc : (y.c - a.c).natAbs ≤ 1) :
    heuristic true a goal ≤ heuristic true y goal + 1 := by
  unfold heuristic
  rw [if_pos rfl, if_pos rfl]
  rcases max_cases ((a.r - goal.r).natAbs : Int) ((a.c - goal.c).natAbs : Int)
      with ⟨he1, hle1⟩ | ⟨he1, hle1⟩ <;>
    rcases max_cases ((y.r - goal.r).natAbs : Int) ((y.c - goal.c).natAbs : Int)
      with ⟨he2, hle2⟩ | ⟨he2, hle2⟩ <;>
    rw [he1, he2] <;> omega

/-- Claim C8 amended: both per-engine estimates are non-negative, and the
synchronous Chebyshev estimate is admissible (never above the cost of any
legal move sequence between its endpoints) on grids whose terrain is all
empty, i.e. multiplier 1; the admissibility claim fails in general — on
road-discounted terrain for the synchronous engine, and for the worker's
Manhattan fCost estimate even on empty terrain (see the counterexample). -/
theorem estimates_nonneg_sync_admissible_empty :
    (∀ a b : Cell, 0 ≤ heuristic true a b ∧ 0 ≤ workerFEstimate a b) ∧
    (∀ (g : Grid) (passable : Cell → Bool) (l : List Cell) (a b : Cell),
      (∀ t ∈ g.cells, t = Tile.empty) →
      ChainOK (stepOK true g.rows g.cols passable) l →
      l.head? = some a → l.getLast? = some b →
      heuristic true a b * costScale ≤ syncPathCost g l) := by
  constructor
  · intro a b
    constructor
    · unfold heuristic
      rw [if_pos rfl]
      exact le_trans (Int.natCast_nonneg _) (le_max_left _ _)
    · unfold workerFEstimate
      have h1 := Int.natCast_nonneg (a.r - b.r).natAbs
      have h2 := Int.natCast_nonneg (a.c - b.c).natAbs
      omega
  · intro g passable l
    induction l with
    | nil =>
      intro a b _ _ hh _
      simp at hh
    | cons x xs ih =>
      intro a b hcells hch hh hl
      obtain rfl : x = a := by simpa using hh
      cases xs with
      | nil =>
        obtain rfl : x = b := by simpa using hl
        have hz : heuristic true x x = 0 := by simp [heuristic]
        simp [hz, syncPathCost]
      | cons y ys =>
        obtain ⟨hstep, hch2⟩ := chainOK_cons.mp hch
        have hdl := neighbors_delta hstep.1
        have hlast2 : (y :: ys).getLast? = some b := by
          rw [List.getLast?_cons_cons] at hl
          exact hl
        have hih := ih y b hcells hch2 rfl hlast2
        have hstepc : 100000 ≤ getMoveCost g x.r x.c y.r y.c :=
          getMoveCost_ge_unit x.r x.c y.r y.c
            (get_empty_of_cells_empty hcells _ _)
        have hcheb : heuristic true x b ≤ heuristic true y b + 1 :=
          cheb_step (by omega) (by omega)
        have hcost : syncPathCost g (x :: y :: ys) =
            getMoveCost g x.r x.c y.r y.c + syncPathCost g (y :: ys) := rfl
        rw [hcost]
        have hsc : costScale = 100000 := rfl
        have hmul : heuristic true x b * costScale ≤
            heuristic true y b * costScale + 100000 := by
          rw [hsc]
          nlinarith [hcheb]
        linarith [hih, hstepc, hmul]

theorem estimates_nonneg_sync_admissible_empty_witness :
    (0 ≤ heuristic true ⟨0, 0⟩ ⟨0, 1⟩ ∧ 0 ≤ workerFEstimate ⟨0, 0⟩ ⟨0, 1⟩) ∧
    (∀ t ∈ G2.cells, t = Tile.empty) ∧
    ChainOK (stepOK true G2.rows G2.cols (fun _ => true)) [⟨0, 0⟩, ⟨0, 1⟩] ∧
    ([⟨0, 0⟩, ⟨0, 1⟩] : List Cell).head? = some ⟨0, 0⟩ ∧
    ([⟨0, 0⟩, ⟨0, 1⟩] : List Cell).getLast? = some ⟨0, 1⟩ ∧
    heuristic true ⟨0, 0⟩ ⟨0, 1⟩ * costScale ≤
      syncPathCost G2 [⟨0, 0⟩, ⟨0, 1⟩] :=
  ⟨estimates_nonneg_sync_admissible_empty.1 ⟨0, 0⟩ ⟨0, 1⟩, by decide, by decide,
    by decide, by decide,
    estimates_nonneg_sync_admissible_empty.2 G2 (fun _ => true)
      [⟨0, 0⟩, ⟨0, 1⟩] ⟨0, 0⟩ ⟨0, 1⟩ (by decide) (by decide) (by decide)
      (by decide)⟩

theorem writeEF_other {size : Int} {m : Int → Option Int} {i : Int}
    {v : Option Int} {j : Int} (h : j ≠ i) : writeEF size m i v j = m j := by
  unfold writeEF
  split
  · simp [h]
  · rfl

theorem writeI_pos {size : Int} {m : Int → Int} {i v : Int}
    (h : 0 ≤ i ∧ i < size) : writeI size m i v i = v := by
  simp [writeI, h]

theorem writeI_other {size : Int} {m : Int → Int} {i v j : Int}
    (h : j ≠ i) : writeI size m i v j = m j := by
  unfold writeI
  split
  · simp [h]
  · rfl

theorem getMoveCost_pos (g : Grid) (r1 c1 r2 c2 : Int) :
    0 < getMoveCost g r1 c1 r2 c2 := by
  by_cases hb : r1 ≠ r2 ∧ c1 ≠ c2 <;>
    cases h : g.get r2 c2 <;>
      simp [getMoveCost, h, hb]

theorem ltEF_trans {a b c : Option Int} (h1 : ltEF a b = true)
    (h2 : ltEF b c = true) : ltEF a c = true := by
  cases a <;> cases b <;> cases c <;> simp_all [ltEF] <;> omega

theorem addEF_some {a : Option Int} {q r : Int}
    (h : addEF a q = some r) : ∃ x, a = some x ∧ r = x + q := by
  cases a with
  | none => cases h
  | some x => exact ⟨x, rfl, (Option.some.inj h).symm⟩

theorem pickMin_mem (fv : Int → Option Int) (l : List Int) :
    pickMin fv l = -1 ∨ pickMin fv l ∈ l := by
  unfold pickMin
  suffices h : ∀ (m : List Int) (acc : Int × Option Int),
      (acc.1 = -1 ∨ acc.1 ∈ l) → (∀ x ∈ m, x ∈ l) →
      ((m.foldl (fun acc k => if ltEF (fv k) acc.2 then (k, fv k) else acc)
        acc).1 = -1 ∨
       (m.foldl (fun acc k => if ltEF (fv k) acc.2 then (k, fv k) else acc)
        acc).1 ∈ l) by
    exact h l ((-1 : Int), (none : Option Int)) (Or.inl rfl) (fun x hx => hx)
  intro m
  induction m with
  | nil => intro acc hacc _; exact hacc
  | cons z zs ih =>
    intro acc hacc hsub
    simp only [List.foldl_cons]
    apply ih
    · split
      · exact Or.inr (hsub z (by simp))
      · exact hacc
    · intro x hx
      exact hsub x (by simp [hx])

theorem foldl_preserve {α β : Type} (P : α → Prop) (f : α → β → α)
    (l : List β) : ∀ (a : α), P a → (∀ x ∈ l, ∀ b, P b → P (f b x)) →
    P (l.foldl f a) := by
  induction l with
  | nil => intro a ha _; exact ha
  | cons x xs ih =>
    intro a ha hstep
    simp only [List.foldl_cons]
    exact ih (f a x) (hstep x (by simp) a ha)
      (fun y hy b hb => hstep y (by simp [hy]) b hb)

theorem chainOK_append {R : Cell → Cell → Prop} :
    ∀ (l : List Cell) (x y : Cell), ChainOK R l → l.getLast? = some y →
      R y x → ChainOK R (l ++ [x])
  | [], _, _, _, hl, _ => by cases hl
  | [a], x, y, _, hl, hR => by
    obtain rfl : a = y := by simpa using hl
    exact ⟨hR, trivial⟩
  | a :: b :: t, x, y, h, hl, hR => by
    obtain ⟨hab, ht⟩ := chainOK_cons.mp h
    rw [List.getLast?_cons_cons] at hl
    exact chainOK_cons.mpr ⟨hab, chainOK_append (b :: t) x y ht hl hR⟩

theorem chainOK_imp {R S : Cell → Cell → Prop} (h : ∀ a b, R a b → S a b) :
    ∀ l, ChainOK R l → ChainOK S l
  | [], _ => trivial
  | [_], _ => trivial
  | a :: b :: t, hc =>
    chainOK_cons.mpr ⟨h a b (chainOK_cons.mp hc).1,
      chainOK_imp h (b :: t) (chainOK_cons.mp hc).2⟩

theorem head_append_single {l : List Cell} {x a : Cell}
    (h : l.head? = some a) : (l ++ [x]).head? = some a := by
  cases l with
  | nil => cases h
  | cons b t => simpa using h

theorem tail_append_single {l : List Cell} {x a : Cell}
    (h : l.head? = some a) : (l ++ [x]).tail = l.tail ++ [x] := by
  cases l with
  | nil => cases h
  | cons b t => rfl

theorem relaxStep_preserve {g : Grid} {diag : Bool} {passable : Cell → Bool}
    {goal : Cell} {startIdx current : Int} {st : SearchSt} {n : Cell}
    (hrows : 0 < g.rows) (hcols : 0 < g.cols)
    (hn : n ∈ neighbors diag g.rows g.cols (Int.fdiv current g.cols)
      (Int.tmod current g.cols))
    (hInv : SearchInv g diag passable startIdx st)
    (hcur : st.gval current = none ∨ current = startIdx ∨
      st.came current ≠ -1) :
    SearchInv g diag passable startIdx
      (relaxStep g diag passable goal current (Int.fdiv current g.cols)
        (Int.tmod current g.cols) st n) ∧
    (relaxStep g diag passable goal current (Int.fdiv current g.cols)
      (Int.tmod current g.cols) st n).gval current = st.gval current ∧
    (relaxStep g diag passable goal current (Int.fdiv current g.cols)
      (Int.tmod current g.cols) st n).came current = st.came current := by
  obtain ⟨hd1, hd2, hd3, hd4, hd5, hd6, hd7⟩ := neighbors_delta hn
  simp only [relaxStep]
  by_cases hpass : passable n = true
  · rw [if_pos hpass]
    by_cases hfire : ltEF (addEF (st.gval current)
        (getMoveCost g (Int.fdiv current g.cols) (Int.tmod current g.cols)
          n.r n.c)) (st.gval (n.r * g.cols + n.c)) = true
    · rw [if_pos hfire]
      obtain ⟨qc, hgcases⟩ : ∃ qc, st.gval current = some qc := by
        cases hgc2 : st.gval current with
        | none =>
          rw [hgc2] at hfire
          simp [addEF, ltEF] at hfire
        | some q => exact ⟨q, rfl⟩
      have hqc0 : 0 ≤ qc := hInv.gNonneg current qc hgcases
      have hmc : 0 < getMoveCost g (Int.fdiv current g.cols)
          (Int.tmod current g.cols) n.r n.c := getMoveCost_pos g _ _ _ _
      have hcurIn : inRangeIdx g.size current := by
        by_contra hno
        rw [hInv.gOut current hno] at hgcases
        cases hgcases
      have hchain2 : current = startIdx ∨ st.came current ≠ -1 := by
        rcases hcur with h | h
        · rw [h] at hgcases
          cases hgcases
        · exact h
      have hniIn : inRangeIdx g.size (n.r * g.cols + n.c) := by
        have he := encode_range hcols ⟨hd4, hd5, hd6, hd7⟩
        unfold inRangeIdx Grid.size
        simpa [encode] using he
      have hdecn : decode g.cols (n.r * g.cols + n.c) = n := by
        have he := decode_encode (p := n) hcols hd4 ⟨hd6, hd7⟩
        simpa [encode] using he
      have hnicur : n.r * g.cols + n.c ≠ current := by
        intro heq
        have hnn : n = ⟨Int.fdiv current g.cols, Int.tmod current g.cols⟩ := by
          rw [← hdecn, heq]
          rfl
        exact hd3 ⟨by rw [hnn], by rw [hnn]⟩
      have hnistart : n.r * g.cols + n.c ≠ startIdx := by
        intro heq
        rw [heq, hInv.gStart, hgcases] at hfire
        simp [addEF, ltEF] at hfire
        omega
      have hcni : writeI g.size st.came (n.r * g.cols + n.c) current
          (n.r * g.cols + n.c) = current := writeI_pos hniIn
      have hstab1 : writeEF g.size st.gval (n.r * g.cols + n.c)
          (addEF (st.gval current)
            (getMoveCost g (Int.fdiv current g.cols)
              (Int.tmod current g.cols) n.r n.c)) current =
          st.gval current := writeEF_other (Ne.symm hnicur)
      have hstab2 : writeI g.size st.came (n.r * g.cols + n.c) current
          current = st.came current := writeI_other (Ne.symm hnicur)
      refine ⟨⟨hInv.startIn, ?_, ?_, ?_, ?_, ?_, ?_, ?_⟩, hstab1, hstab2⟩
      · -- openIn
        dsimp only
        intro k hk
        have hold : k ∈ st.openL →
            k = startIdx ∨ writeI g.size st.came (n.r * g.cols + n.c)
              current k ≠ -1 := by
          intro hkm
          rcases hInv.openIn k hkm with h | h
          · exact Or.inl h
          · right
            by_cases hkni : k = n.r * g.cols + n.c
            · rw [hkni, hcni]
              have := hcurIn.1
              omega
            · rw [writeI_other hkni]
              exact h
        unfold addOpen at hk
        split at hk
        · exact hold hk
        · rcases List.mem_append.mp hk with hk | hk
          · exact hold hk
          · obtain rfl : k = n.r * g.cols + n.c := by simpa using hk
            right
            rw [hcni]
            have := hcurIn.1
            omega
      · -- gNonneg
        dsimp only
        intro i q hi
        by_cases hini : i = n.r * g.cols + n.c
        · subst hini
          rw [writeEF_pos hniIn, hgcases] at hi
          simp only [addEF, Option.some.injEq] at hi
          omega
        · rw [writeEF_other hini] at hi
          exact hInv.gNonneg i q hi
      · -- gOut
        dsimp only
        intro i hi
        have hine : i ≠ n.r * g.cols + n.c := fun heq => hi (heq ▸ hniIn)
        rw [writeEF_other hine]
        exact hInv.gOut i hi
      · -- cameOut
        dsimp only
        intro i hi
        have hine : i ≠ n.r * g.cols + n.c := fun heq => hi (heq ▸ hniIn)
        rw [writeI_other hine]
        exact hInv.cameOut i hi
      · -- gStart
        dsimp only
        rw [writeEF_other (Ne.symm hnistart)]
        exact hInv.gStart
      · -- cameStart
        dsimp only
        rw [writeI_other (Ne.symm hnistart)]
        exact hInv.cameStart
      · -- cameProp
        dsimp only
        intro i hi
        by_cases hini : i = n.r * g.cols + n.c
        · subst hini
          rw [hcni] at hi ⊢
          refine ⟨hniIn, hcurIn, ?_, ?_, ?_, ?_⟩
          · rcases hchain2 with h | h
            · exact Or.inl h
            · right
              rw [hstab2]
              exact h
          · rw [hdecn]
            exact hn
          · rw [hdecn]
            exact hpass
          · rw [hstab1, writeEF_pos hniIn, hgcases]
            simp [addEF, ltEF]
            omega
        · have hci : writeI g.size st.came (n.r * g.cols + n.c) current i =
              st.came i := writeI_other hini
          rw [hci] at hi ⊢
          obtain ⟨h1, h2, h3, h4, h5, h6⟩ := hInv.cameProp i hi
          refine ⟨h1, h2, ?_, h4, h5, ?_⟩
          · rcases h3 with h | h
            · exact Or.inl h
            · right
              by_cases hcamen : st.came i = n.r * g.cols + n.c
              · rw [hcamen, hcni]
                have := hcurIn.1
                omega
              · rw [writeI_other hcamen]
                exact h
          · rw [writeEF_other hini]
            by_cases hcamen : st.came i = n.r * g.cols + n.c
            · rw [hcamen, writeEF_pos hniIn]
              rw [hcamen] at h6
              exact ltEF_trans hfire h6
            · rw [writeEF_other hcamen]
              exact h6
    · rw [if_neg hfire]
      exact ⟨hInv, rfl, rfl⟩
  · rw [if_neg hpass]
    exact ⟨hInv, rfl, rfl⟩

theorem expand_preserve {g : Grid} {diag : Bool} {passable : Cell → Bool}
    {goal : Cell} {startIdx : Int} (st : SearchSt) (current : Int)
    (hrows : 0 < g.rows) (hcols : 0 < g.cols)
    (hInv : SearchInv g diag passable startIdx st)
    (hcur0 : current ∈ st.openL ∨ current = -1) :
    SearchInv g diag passable startIdx
      (expand g diag passable goal st current) := by
  simp only [expand]
  have hInv1 : SearchInv g diag passable startIdx
      {st with openL := st.openL.erase current} := by
    refine ⟨hInv.startIn, ?_, hInv.gNonneg, hInv.gOut, hInv.cameOut,
      hInv.gStart, hInv.cameStart, hInv.cameProp⟩
    intro k hk
    exact hInv.openIn k (List.mem_of_mem_erase hk)
  have hcur1 : SearchSt.gval {st with openL := st.openL.erase current}
        current = none ∨ current = startIdx ∨
      SearchSt.came {st with openL := st.openL.erase current} current ≠ -1 := by
    rcases hcur0 with h | h
    · rcases hInv.openIn current h with h2 | h2
      · exact Or.inr (Or.inl h2)
      · exact Or.inr (Or.inr h2)
    · left
      apply hInv.gOut
      unfold inRangeIdx
      omega
  have hfold := foldl_preserve
    (fun st2 => SearchInv g diag passable startIdx st2 ∧
      (st2.gval current = none ∨ current = startIdx ∨
        st2.came current ≠ -1))
    (relaxStep g diag passable goal current (Int.fdiv current g.cols)
      (Int.tmod current g.cols))
    (neighbors diag g.rows g.cols (Int.fdiv current g.cols)
      (Int.tmod current g.cols))
    {st with openL := st.openL.erase current} ⟨hInv1, hcur1⟩ ?_
  · exact hfold.1
  · intro x hx b hb
    obtain ⟨hbInv, hbcur⟩ := hb
    obtain ⟨hInv2, hg2, hc2⟩ := relaxStep_preserve hrows hcols hx hbInv hbcur
    refine ⟨hInv2, ?_⟩
    rcases hbcur with h | h | h
    · exact Or.inl (hg2.trans h)
    · exact Or.inr (Or.inl h)
    · exact Or.inr (Or.inr (hc2.symm ▸ h))

theorem searchLoop_preserve {g : Grid} {diag : Bool} {passable : Cell → Bool}
    {goal : Cell} {goalIdx startIdx : Int}
    (hrows : 0 < g.rows) (hcols : 0 < g.cols) :
    ∀ (fuel : Nat) (st st2 : SearchSt),
      SearchInv g diag passable startIdx st →
      searchLoop g diag passable goal goalIdx fuel st = some st2 →
      SearchInv g diag passable startIdx st2 := by
  intro fuel
  induction fuel with
  | zero =>
    intro st st2 _ h
    cases h
  | succ m ih =>
    intro st st2 hInv h
    unfold searchLoop at h
    split at h
    · exact (Option.some.inj h) ▸ hInv
    · dsimp only at h
      split at h
      · exact (Option.some.inj h) ▸ hInv
      · exact ih _ _ (expand_preserve st _ hrows hcols hInv
          ((pickMin_mem st.fval st.openL).elim Or.inr Or.inl)) h

theorem initState_inv {s : AStar} {start goal : Cell}
    (passable : Cell → Bool) (hcols : 0 < s.grid.cols)
    (hin : 0 ≤ start.r ∧ start.r < s.grid.rows ∧ 0 ≤ start.c ∧
      start.c < s.grid.cols) :
    SearchInv s.grid s.diagonal passable (start.r * s.grid.cols + start.c)
      (initState s start goal) := by
  have hrange : inRangeIdx s.grid.size (start.r * s.grid.cols + start.c) := by
    have he := encode_range hcols hin
    unfold inRangeIdx Grid.size
    simpa [encode] using he
  refine ⟨hrange, ?_, ?_, ?_, ?_, ?_, ?_, ?_⟩
  · intro k hk
    simp only [initState, List.mem_singleton] at hk
    exact Or.inl hk
  · intro i q hi
    simp only [initState] at hi
    by_cases hii : i = start.r * s.grid.cols + start.c
    · subst hii
      rw [writeEF_pos hrange] at hi
      simp only [Option.some.injEq] at hi
      omega
    · rw [writeEF_other hii] at hi
      simp at hi
  · intro i hi
    simp only [initState]
    have hne : i ≠ start.r * s.grid.cols + start.c :=
      fun heq => hi (heq ▸ hrange)
    rw [writeEF_other hne]
  · intro i _
    rfl
  · simp only [initState]
    exact writeEF_pos hrange
  · rfl
  · intro i hi
    exact absurd rfl hi

theorem rebuild_spec {g : Grid} {diag : Bool} {passable : Cell → Bool}
    {startIdx : Int} {st : SearchSt}
    (hInv : SearchInv g diag passable startIdx st)
    (hrows : 0 < g.rows) (hcols : 0 < g.cols) :
    ∀ (fuel : Nat) (cur : Int) (l : List Cell),
      rebuild g st.came fuel cur = some l →
      cur ≠ -1 → inRangeIdx g.size cur →
      (cur = startIdx ∨ st.came cur ≠ -1) →
      l.head? = some (decode g.cols startIdx) ∧
      l.getLast? = some (decode g.cols cur) ∧
      (∀ x ∈ l, 0 ≤ x.r ∧ x.r < g.rows ∧ 0 ≤ x.c ∧ x.c < g.cols) ∧
      ChainOK (fun a b => b ∈ neighbors diag g.rows g.cols a.r a.c) l ∧
      (∀ x ∈ l.tail, passable x = true) := by
  intro fuel
  induction fuel with
  | zero =>
    intro cur l h
    cases h
  | succ m ih =>
    intro cur l h hne hinr hchain
    unfold rebuild at h
    rw [if_neg hne, if_pos (show 0 ≤ cur ∧ cur < g.size from hinr)] at h
    rcases hprev : rebuild g st.came m (st.came cur) with _ | l0
    · rw [hprev] at h
      simp at h
    · rw [hprev] at h
      simp only [Option.map_some', Option.some.injEq] at h
      subst h
      have hdr := decode_range hcols hrows
        (show 0 ≤ cur ∧ cur < g.rows * g.cols from hinr)
      rcases hchain with rfl | hc
      · -- root: cur is the start index, its chain is empty
        have hl0 : l0 = [] := by
          cases m with
          | zero => cases hprev
          | succ m2 =>
            unfold rebuild at hprev
            rw [hInv.cameStart, if_pos rfl] at hprev
            exact (Option.some.inj hprev).symm
        subst hl0
        refine ⟨rfl, rfl, ?_, trivial, ?_⟩
        · intro x hx
          obtain rfl : x = decode g.cols cur := by simpa using hx
          exact ⟨hdr.1, hdr.2.1, hdr.2.2.1, hdr.2.2.2.1⟩
        · intro x hx
          simp at hx
      · obtain ⟨hinr2, hinrc, hchain3, hnb, hpassb, _⟩ :=
          hInv.cameProp cur hc
        obtain ⟨ihh, ihl, ihb, ihc, iht⟩ :=
          ih (st.came cur) l0 hprev hc hinrc hchain3
        refine ⟨head_append_single ihh, ?_, ?_, ?_, ?_⟩
        · simp [List.getLast?_append, decode]
        · intro x hx
          rcases List.mem_append.mp hx with hx | hx
          · exact ihb x hx
          · obtain rfl : x = decode g.cols cur := by simpa using hx
            exact ⟨hdr.1, hdr.2.1, hdr.2.2.1, hdr.2.2.2.1⟩
        · exact chainOK_append l0 (decode g.cols cur)
            (decode g.cols (st.came cur)) ihc ihl hnb
        · rw [tail_append_single ihh]
          intro x hx
          rcases List.mem_append.mp hx with hx | hx
          · exact iht x hx
          · obtain rfl : x = decode g.cols cur := by simpa using hx
            exact hpassb

/-- Claim C10 amended: the claimed path shape holds for freshly computed
paths — on a cache miss with in-bounds start and goal on a positive grid,
a non-null result starts at the start cell, ends at the goal cell, stays in
bounds, moves by at most one row and one column per step (never staying
put), and every cell after the first satisfies the passability predicate of
that call.  For cache hits the passability part is not guaranteed, because
the cache key ignores the mask (see the counterexample). -/
theorem fresh_path_valid (fuel : Nat) (s : AStar) (start goal : Cell)
    (passable : Cell → Bool) (p : List Cell) (s2 : AStar)
    (hrows : 0 < s.grid.rows) (hcols : 0 < s.grid.cols)
    (hs : 0 ≤ start.r ∧ start.r < s.grid.rows ∧ 0 ≤ start.c ∧
      start.c < s.grid.cols)
    (hg : 0 ≤ goal.r ∧ goal.r < s.grid.rows ∧ 0 ≤ goal.c ∧
      goal.c < s.grid.cols)
    (hmiss : lookupCache s.cache (mkKey start goal s.grid) = none)
    (hrun : findPathF fuel s start goal passable = some (some p, s2)) :
    p.head? = some start ∧ p.getLast? = some goal ∧
    (∀ x ∈ p, 0 ≤ x.r ∧ x.r < s.grid.rows ∧ 0 ≤ x.c ∧ x.c < s.grid.cols) ∧
    ChainOK (fun a b => ¬(b.r = a.r ∧ b.c = a.c) ∧
      (b.r - a.r).natAbs ≤ 1 ∧ (b.c - a.c).natAbs ≤ 1) p ∧
    (∀ x ∈ p.tail, passable x = true) := by
  simp only [findPathF, hmiss] at hrun
  split at hrun
  · simp at hrun
  · rename_i stF hsr
    split at hrun
    · simp at hrun
    · rename_i hnot
      split at hrun
      · simp at hrun
      · rename_i q hrb
        simp only [Option.some.injEq, Prod.mk.injEq] at hrun
        obtain ⟨hq, _⟩ := hrun
        obtain rfl : q = p := by simpa using hq
        unfold runSearch at hsr
        have hInv : SearchInv s.grid s.diagonal passable
            (start.r * s.grid.cols + start.c) stF :=
          searchLoop_preserve hrows hcols fuel _ _
            (initState_inv passable hcols hs) hsr
        have hgoalIn : inRangeIdx s.grid.size
            (goal.r * s.grid.cols + goal.c) := by
          have he := encode_range hcols hg
          unfold inRangeIdx Grid.size
          simpa [encode] using he
        have hcame : stF.came (goal.r * s.grid.cols + goal.c) ≠ -1 := by
          intro hcz
          exact hnot ⟨⟨hgoalIn.1, hgoalIn.2⟩, hcz⟩
        have hgne : goal.r * s.grid.cols + goal.c ≠ -1 := by
          have := hgoalIn.1
          omega
        obtain ⟨hh, hlst, hbnd, hchn, htl⟩ :=
          rebuild_spec hInv hrows hcols fuel _ q hrb hgne hgoalIn
            (Or.inr hcame)
        have hdstart : decode s.grid.cols (start.r * s.grid.cols + start.c) =
            start := by
          have he := decode_encode (p := start) hcols hs.1 ⟨hs.2.2.1, hs.2.2.2⟩
          simpa [encode] using he
        have hdgoal : decode s.grid.cols (goal.r * s.grid.cols + goal.c) =
            goal := by
          have he := decode_encode (p := goal) hcols hg.1 ⟨hg.2.2.1, hg.2.2.2⟩
          simpa [encode] using he
        rw [hdstart] at hh
        rw [hdgoal] at hlst
        refine ⟨hh, hlst, hbnd, ?_, htl⟩
        refine chainOK_imp ?_ q hchn
        intro a b hab
        have hd := neighbors_delta hab
        exact ⟨hd.2.2.1, hd.1, hd.2.1⟩

theorem fresh_path_valid_witness :
    0 < (mkAStar G22).grid.rows ∧ 0 < (mkAStar G22).grid.cols ∧
    (0 ≤ (Cell.r ⟨0, 0⟩) ∧ (Cell.r ⟨0, 0⟩) < (mkAStar G22).grid.rows ∧
      0 ≤ (Cell.c ⟨0, 0⟩) ∧ (Cell.c ⟨0, 0⟩) < (mkAStar G22).grid.cols) ∧
    (0 ≤ (Cell.r ⟨1, 1⟩) ∧ (Cell.r ⟨1, 1⟩) < (mkAStar G22).grid.rows ∧
      0 ≤ (Cell.c ⟨1, 1⟩) ∧ (Cell.c ⟨1, 1⟩) < (mkAStar G22).grid.cols) ∧
    lookupCache (mkAStar G22).cache
      (mkKey ⟨0, 0⟩ ⟨1, 1⟩ (mkAStar G22).grid) = none ∧
    findPathF 20 (mkAStar G22) ⟨0, 0⟩ ⟨1, 1⟩ (fun _ => true) =
      some (some [⟨0, 0⟩, ⟨1, 1⟩],
        ⟨G22, [(mkKey ⟨0, 0⟩ ⟨1, 1⟩ G22, [⟨0, 0⟩, ⟨1, 1⟩])], true⟩) ∧
    (([⟨0, 0⟩, ⟨1, 1⟩] : List Cell).head? = some ⟨0, 0⟩ ∧
      ([⟨0, 0⟩, ⟨1, 1⟩] : List Cell).getLast? = some ⟨1, 1⟩ ∧
      (∀ x ∈ ([⟨0, 0⟩, ⟨1, 1⟩] : List Cell), 0 ≤ x.r ∧
        x.r < (mkAStar G22).grid.rows ∧ 0 ≤ x.c ∧
        x.c < (mkAStar G22).grid.cols) ∧
      ChainOK (fun a b => ¬(b.r = a.r ∧ b.c = a.c) ∧
        (b.r - a.r).natAbs ≤ 1 ∧ (b.c - a.c).natAbs ≤ 1)
        [⟨0, 0⟩, ⟨1, 1⟩] ∧
      (∀ x ∈ ([⟨0, 0⟩, ⟨1, 1⟩] : List Cell).tail,
        (fun _ => true) x = true)) :=
  ⟨by decide, by decide, by decide, by decide, by decide, by decide,
    fresh_path_valid 20 (mkAStar G22) ⟨0, 0⟩ ⟨1, 1⟩ (fun _ => true)
      [⟨0, 0⟩, ⟨1, 1⟩]
      ⟨G22, [(mkKey ⟨0, 0⟩ ⟨1, 1⟩ G22, [⟨0, 0⟩, ⟨1, 1⟩])], true⟩
      (by decide) (by decide) (by decide) (by decide)
      (by decide) (by decide)⟩
